import Mathlib

/-!
Verification of the GoDe color/audio core.

This file embeds the color-algebra and audio-analysis functions of the
repository (src/colors/groups.ts, src/colors/manipulation.ts,
src/audio/AudioPlayerProvider.ts, src/audio/ReactiveThemeController.ts)
as Lean definitions, and proves or refutes the specified properties.

Exact numeric code (hue arithmetic, beat detection, gradients, mel
weighting) is embedded over `ℚ`; the mel-scale conversions, which use
`Math.log10` and `Math.pow`, are embedded over `ℝ`.

Operations of the external `tinycolor2` dependency (not part of this
repository) that the repository code calls — `spin`, `darken`, `lighten`,
`saturate`, `setAlpha`, `mix`, and construction from an HSL object — are
modelled on the HSL/RGB channels from the library's documented behaviour:
construction clamps hue into [0,360] and saturation/lightness into [0,1]
(a saturation or lightness argument ≤ 1 is interpreted as a fraction,
larger values as percentages), `darken`/`lighten`/`saturate` shift the
channel by `amount/100` and clamp to [0,1], `spin` adds to the hue with
JavaScript remainder semantics and renormalizes into [0,360), `setAlpha`
replaces an out-of-range alpha by 1, and `mix` blends RGB channels at
`amount/100` (the final hex serialization rounds each channel to the
nearest integer). Hex-string serialization itself is not modelled; colors
are tracked as their channel values.
-/

/-- JavaScript `Math.round`: round half up, i.e. `⌊x + 1/2⌋`. -/
def jsRound (x : ℚ) : ℤ := ⌊x + 1/2⌋

/-- Truncation toward zero, the rounding used by the JavaScript `%` operator. -/
def ratTrunc (q : ℚ) : ℤ := if 0 ≤ q then ⌊q⌋ else -⌊-q⌋

/-- Clamp `x` into `[lo, hi]` (`Math.min(hi, Math.max(lo, x))`). -/
def clampQ (lo hi x : ℚ) : ℚ := min hi (max lo x)

/-- The hue difference adjustment of `AdvancedColorOps.interpolateHue`
(src/colors/groups.ts lines 419-425): bring `end - start` into the
short-arc range by a single ±360 correction. -/
def hueDiffAdj (s e : ℚ) : ℚ :=
  if e - s > 180 then e - s - 360
  else if e - s < -180 then e - s + 360
  else e - s

/-- The result wrap of `AdvancedColorOps.interpolateHue`
(src/colors/groups.ts lines 427-429): `if (result < 0) result += 360;
if (result >= 360) result -= 360;`. -/
def hueWrap (r : ℚ) : ℚ :=
  let r1 := if r < 0 then r + 360 else r
  if r1 ≥ 360 then r1 - 360 else r1

/-- `AdvancedColorOps.interpolateHue` (src/colors/groups.ts lines 418-432). -/
def interpolateHue (s e t : ℚ) : ℚ := hueWrap (s + hueDiffAdj s e * t)

/-- The hue computation of `AdvancedColorOps.adjustTemperature`
(src/colors/groups.ts lines 232-250): positive amounts interpolate the
hue toward 30°, non-positive amounts toward 210°, by `|amount|/100`. -/
def adjustTemperatureHue (h amount : ℚ) : ℚ :=
  if amount > 0 then interpolateHue h 30 (amount / 100)
  else interpolateHue h 210 (|amount| / 100)

/-- `tinycolor.spin` (tinycolor2 dependency): hue becomes
`(h + amount) % 360` with the JavaScript remainder, then negatives are
shifted up by 360. -/
def tcSpin (h amount : ℚ) : ℚ :=
  let hue := (h + amount) - 360 * (ratTrunc ((h + amount) / 360) : ℚ)
  if hue < 0 then hue + 360 else hue

/-- The hue components of the `analogous` case of
`AdvancedColorOps.generateHarmony` (src/colors/groups.ts lines 40-48):
the base color followed by spins of +30, -30, +60, -60 degrees. -/
def analogousHarmonyHues (h : ℚ) : List ℚ :=
  [h, tcSpin h 30, tcSpin h (-30), tcSpin h 60, tcSpin h (-60)]

/-- The canonical representative of an angle modulo 360 in `[0, 360)`
(specification-side normal form used to state hue congruences). -/
def norm360 (x : ℚ) : ℚ := x - 360 * (⌊x / 360⌋ : ℚ)

/-- An HSLA color as tracked by the tinycolor2 model: hue in degrees,
saturation/lightness/alpha as fractions. -/
structure Hsl where
  h : ℚ
  s : ℚ
  l : ℚ
  a : ℚ
deriving DecidableEq, Repr

/-- A color's channels are in tinycolor's internal ranges:
hue in `[0, 360]`, saturation, lightness and alpha in `[0, 1]`. -/
def validHsl (c : Hsl) : Prop :=
  0 ≤ c.h ∧ c.h ≤ 360 ∧ 0 ≤ c.s ∧ c.s ≤ 1 ∧ 0 ≤ c.l ∧ c.l ≤ 1 ∧
    0 ≤ c.a ∧ c.a ≤ 1

/-- tinycolor's interpretation of a numeric saturation/lightness input:
a value ≤ 1 is read as a fraction, a larger value as a percentage;
either way the stored fraction is clamped into `[0, 1]`. -/
def tcPercent (x : ℚ) : ℚ :=
  if x ≤ 1 then clampQ 0 1 x else clampQ 0 1 (x / 100)

/-- Construction `tinycolor({h, s, l})` (tinycolor2 dependency): the hue
is clamped into `[0, 360]`, saturation and lightness are clamped
fractions, alpha defaults to 1. -/
def tcFromHsl (h s l : ℚ) : Hsl :=
  ⟨clampQ 0 360 h, tcPercent s, tcPercent l, 1⟩

/-- `tinycolor.darken(amount)`: lower lightness by `amount/100`, clamped. -/
def tcDarken (c : Hsl) (amount : ℚ) : Hsl :=
  { c with l := clampQ 0 1 (c.l - amount / 100) }

/-- `tinycolor.lighten(amount)`: raise lightness by `amount/100`, clamped. -/
def tcLighten (c : Hsl) (amount : ℚ) : Hsl :=
  { c with l := clampQ 0 1 (c.l + amount / 100) }

/-- `tinycolor.saturate(amount)`: raise saturation by `amount/100`, clamped. -/
def tcSaturate (c : Hsl) (amount : ℚ) : Hsl :=
  { c with s := clampQ 0 1 (c.s + amount / 100) }

/-- `tinycolor.spin(amount)` on a color value. -/
def tcSpinC (c : Hsl) (amount : ℚ) : Hsl :=
  { c with h := tcSpin c.h amount }

/-- `tinycolor.setAlpha(a)`: an alpha outside `[0, 1]` is replaced by 1. -/
def tcSetAlpha (c : Hsl) (a : ℚ) : Hsl :=
  { c with a := if 0 ≤ a ∧ a ≤ 1 then a else 1 }

/-- The audio feature record sent by the webview
(`analyzeAudioFeatures` in src/audio/AudioPlayerProvider.ts); the
timestamp field is irrelevant to the verified properties and omitted. -/
structure AudioAnalysisData where
  energy : ℚ
  isBeat : Bool
  brightness : ℚ
  spectralCentroid : ℚ
  dominantFreq : ℚ
deriving DecidableEq, Repr

/-- The smoothing state of `ReactiveThemeController`
(src/audio/ReactiveThemeController.ts lines 9-11). -/
structure SmoothState where
  lastHue : ℚ
  lastSaturation : ℚ
  lastBrightness : ℚ
deriving DecidableEq, Repr

/-- `ReactiveThemeController.smooth` (src/audio/ReactiveThemeController.ts
lines 138-140). -/
def smooth (current target factor : ℚ) : ℚ :=
  current + (target - current) * factor

/-- The smoothing factor of `ReactiveThemeController` (line 8). -/
def smoothingFactor : ℚ := 3 / 10

/-- The literal color `'#000000'` used for `statusBar.foreground` on a
beat frame. -/
def blackHsl : Hsl := ⟨0, 0, 0, 1⟩

/-- `ReactiveThemeController.processAudioData`
(src/audio/ReactiveThemeController.ts lines 55-136), in its active state:
maps the audio features to target hue/saturation/lightness, advances the
smoothing state, and derives the palette of themed colors that is written
into `workbench.colorCustomizations`. Returns the new smoothing state and
the list of palette colors in the order the source builds them. -/
def processAudioData (data : AudioAnalysisData) (st : SmoothState) :
    SmoothState × List Hsl :=
  let targetHue : ℚ := (⌊data.dominantFreq * 360⌋ : ℚ)
  let targetSaturation : ℚ := 40 + data.energy * 60
  let targetBrightness : ℚ := 30 + data.spectralCentroid * 40
  let newState : SmoothState :=
    ⟨smooth st.lastHue targetHue smoothingFactor,
     smooth st.lastSaturation targetSaturation smoothingFactor,
     smooth st.lastBrightness targetBrightness smoothingFactor⟩
  let baseColor :=
    tcFromHsl newState.lastHue newState.lastSaturation newState.lastBrightness
  let beatBoost : ℚ := if data.isBeat then 15 else 0
  let editorBg := tcDarken baseColor (25 - beatBoost)
  let sidebarBg := tcSpinC (tcDarken baseColor 30) 30
  let accentColor := tcSaturate (tcLighten baseColor (20 + beatBoost)) 20
  let selectionBg := tcSetAlpha baseColor (3 / 10)
  let complementary := tcSpinC baseColor 180
  let highlightColor := tcLighten complementary (30 + beatBoost)
  let analogous1 := tcLighten (tcSpinC baseColor 30) 10
  let analogous2 := tcLighten (tcSpinC baseColor (-30)) 10
  (newState,
   [editorBg,
    selectionBg,
    tcSetAlpha (tcDarken baseColor 20) (1 / 10),
    accentColor,
    highlightColor,
    sidebarBg,
    tcDarken baseColor 35,
    tcDarken baseColor 35,
    accentColor,
    accentColor,
    if data.isBeat then accentColor else tcDarken baseColor 30,
    if data.isBeat then blackHsl else tcLighten baseColor 40,
    analogous1,
    analogous2,
    tcLighten baseColor 20,
    tcSetAlpha (tcDarken baseColor 20) (2 / 10),
    accentColor,
    accentColor,
    sidebarBg,
    tcDarken baseColor 15,
    tcSetAlpha (tcDarken baseColor 22) (1 / 2),
    accentColor])

/-- A mel filter: the triple of FFT-bin indices computed by
`createMelFilterbank` (src/audio/AudioPlayerProvider.ts line 364). -/
structure MelFilter where
  leftBin : ℤ
  centerBin : ℤ
  rightBin : ℤ
deriving DecidableEq, Repr

/-- `hzToMel` (src/audio/AudioPlayerProvider.ts lines 370-372). -/
noncomputable def hzToMel (hz : ℝ) : ℝ := 2595 * Real.logb 10 (1 + hz / 700)

/-- `melToHz` (src/audio/AudioPlayerProvider.ts lines 374-376). -/
noncomputable def melToHz (mel : ℝ) : ℝ := 700 * ((10 : ℝ) ^ (mel / 2595) - 1)

/-- `createMelFilterbank` (src/audio/AudioPlayerProvider.ts lines
345-368): `numFilters + 2` equally spaced mel edges over
`[hzToMel 0, hzToMel (sampleRate/2)]`; filter `i` takes three consecutive
edges, converts them back to Hz and floors them to FFT-bin indices. -/
noncomputable def createMelFilterbank (numFilters fftSize : ℕ)
    (sampleRate : ℝ) : List MelFilter :=
  let minMel := hzToMel 0
  let maxMel := hzToMel (sampleRate / 2)
  let melStep := (maxMel - minMel) / (numFilters + 1)
  (List.range numFilters).map (fun (i : ℕ) =>
    let leftMel := minMel + (i : ℝ) * melStep
    let centerMel := minMel + ((i : ℝ) + 1) * melStep
    let rightMel := minMel + ((i : ℝ) + 2) * melStep
    { leftBin := ⌊melToHz leftMel / (sampleRate / fftSize)⌋,
      centerBin := ⌊melToHz centerMel / (sampleRate / fftSize)⌋,
      rightBin := ⌊melToHz rightMel / (sampleRate / fftSize)⌋ })

/-- Division producing `none` when the denominator is zero: in the
JavaScript source such a division yields `NaN` or `±Infinity`, i.e. a
non-finite value, which `none` models. -/
def safeDiv (a b : ℚ) : Option ℚ := if b = 0 then none else some (a / b)

/-- The triangular filter weight of `applyMelFilterbank`
(src/audio/AudioPlayerProvider.ts lines 389-394): linear ramp up to the
center bin, linear ramp down after it. -/
def triWeight (f : MelFilter) (bin : ℤ) : Option ℚ :=
  if bin < f.centerBin then
    safeDiv ((bin - f.leftBin : ℤ) : ℚ) ((f.centerBin - f.leftBin : ℤ) : ℚ)
  else
    safeDiv ((f.rightBin - bin : ℤ) : ℚ) ((f.rightBin - f.centerBin : ℤ) : ℚ)

/-- Indexing `fftData[bin]`: `none` (JavaScript `undefined`, hence `NaN`
in arithmetic) outside the array bounds. -/
def listGetZ (l : List ℚ) (i : ℤ) : Option ℚ :=
  if h : 0 ≤ i ∧ i.toNat < l.length then some (l.get ⟨i.toNat, h.2⟩) else none

/-- One mel-spectrum value of `applyMelFilterbank`
(src/audio/AudioPlayerProvider.ts lines 379-404): iterate the bins from
`leftBin` to `rightBin`, skip bins at or beyond the frame length,
accumulate `fftData[bin] * weight` and a count, and divide the sum by the
count (`0` when no bin was counted). A non-finite intermediate value
(division by a zero denominator, out-of-bounds access) makes the result
non-finite, modelled as `none`. -/
def melValue (fftData : List ℚ) (f : MelFilter) : Option ℚ :=
  let res := (List.range (f.rightBin - f.leftBin + 1).toNat).foldl
    (fun (acc : Option ℚ × ℕ) i =>
      let bin := f.leftBin + i
      if bin < (fftData.length : ℤ) then
        (Option.bind acc.1 (fun sum =>
          Option.bind (triWeight f bin) (fun w =>
            Option.map (fun x => sum + x * w) (listGetZ fftData bin))),
         acc.2 + 1)
      else acc)
    (some 0, 0)
  if 0 < res.2 then Option.map (fun sum => sum / (res.2 : ℚ)) res.1
  else some 0

/-- The beat threshold of `beatDetector`
(src/audio/AudioPlayerProvider.ts line 254). -/
def beatThreshold : ℚ := 13 / 10

/-- One step of the beat detector inside `analyzeAudioFeatures`
(src/audio/AudioPlayerProvider.ts lines 496-503): push the energy sample,
evict the oldest sample once more than 43 are held, and declare a beat
when the sample exceeds the buffer mean times the threshold. -/
def beatObserve (hist : List ℚ) (energy : ℚ) : List ℚ × Bool :=
  let h1 := hist ++ [energy]
  let h2 := if 43 < h1.length then h1.tail else h1
  let avgEnergy := h2.sum / (h2.length : ℚ)
  (h2, if avgEnergy * beatThreshold < energy then true else false)

/-- One frame of a beat-detector run: advance the history with
`beatObserve` and record the emitted `isBeat` flag. -/
def beatFold (acc : List ℚ × List Bool) (e : ℚ) : List ℚ × List Bool :=
  let step := beatObserve acc.1 e
  (step.1, acc.2 ++ [step.2])

/-- Feed a sequence of energy samples through the beat detector starting
from an empty history; returns the `isBeat` flag of every step. -/
def beatRun (inputs : List ℚ) : List Bool :=
  (inputs.foldl beatFold ([], [])).2

/-- An RGB color with integer channels. -/
structure Rgb where
  r : ℤ
  g : ℤ
  b : ℤ
deriving DecidableEq, Repr

/-- Channels of a valid RGB color lie in `[0, 255]`. -/
def validRgb (c : Rgb) : Prop :=
  0 ≤ c.r ∧ c.r ≤ 255 ∧ 0 ≤ c.g ∧ c.g ≤ 255 ∧ 0 ≤ c.b ∧ c.b ≤ 255

/-- `tinycolor.mix(c1, c2, amount)` followed by hex serialization
(tinycolor2 dependency): each channel is `(c2 - c1) * amount/100 + c1`,
clamped into `[0, 255]` at construction and rounded by `toHexString`. -/
def tcMix (c1 c2 : Rgb) (amount : ℚ) : Rgb :=
  let p := amount / 100
  { r := jsRound (clampQ 0 255 (((c2.r : ℚ) - (c1.r : ℚ)) * p + (c1.r : ℚ))),
    g := jsRound (clampQ 0 255 (((c2.g : ℚ) - (c1.g : ℚ)) * p + (c1.g : ℚ))),
    b := jsRound (clampQ 0 255 (((c2.b : ℚ) - (c1.b : ℚ)) * p + (c1.b : ℚ))) }

/-- `AdvancedColorOps.generateGradient` (src/colors/groups.ts lines
104-120). An unparseable endpoint color is `none`; with both endpoints
valid and `steps ≥ 2` the loop mixes the endpoints at
`i / (steps - 1) * 100` percent for `i` in `[0, steps)`. -/
def generateGradient (startColor endColor : Option Rgb) (steps : ℤ) :
    List Rgb :=
  match startColor, endColor with
  | some s, some e =>
    if steps < 2 then []
    else (List.range steps.toNat).map (fun (i : ℕ) =>
      tcMix s e ((i : ℚ) / ((steps : ℚ) - 1) * 100))
  | _, _ => []

/-- The sRGB channel decode step of `AdvancedColorOps.rgbToLab`
(src/colors/groups.ts lines 375-377): gamma-expand one channel already
scaled into `[0, 1]`. -/
noncomputable def gammaDecode (u : ℝ) : ℝ :=
  if u > 0.04045 then ((u + 0.055) / 1.055) ^ (2.4 : ℝ) else u / 12.92

/-- The Lab nonlinearity of `AdvancedColorOps.rgbToLab`
(src/colors/groups.ts lines 383-385). -/
noncomputable def labF (t : ℝ) : ℝ :=
  if t > 0.008856 then t ^ ((1 : ℝ) / 3) else 7.787 * t + 16 / 116

/-- `AdvancedColorOps.rgbToLab` (src/colors/groups.ts lines 369-392):
sRGB to linear RGB, to XYZ (D65), to Lab. -/
noncomputable def rgbToLab (c : Rgb) : ℝ × ℝ × ℝ :=
  let r := gammaDecode ((c.r : ℝ) / 255)
  let g := gammaDecode ((c.g : ℝ) / 255)
  let b := gammaDecode ((c.b : ℝ) / 255)
  let x := (r * 0.4124 + g * 0.3576 + b * 0.1805) / 0.95047
  let y := (r * 0.2126 + g * 0.7152 + b * 0.0722) / 1.00000
  let z := (r * 0.0193 + g * 0.1192 + b * 0.9505) / 1.08883
  let fx := labF x
  let fy := labF y
  let fz := labF z
  (116 * fy - 16, 500 * (fx - fy), 200 * (fy - fz))

/-- The sRGB channel encode step of `AdvancedColorOps.labToRgb`
(src/colors/groups.ts lines 407-409): gamma-compress one linear channel. -/
noncomputable def gammaEncode (v : ℝ) : ℝ :=
  if v > 0.0031308 then 1.055 * v ^ ((1 : ℝ) / 2.4) - 0.055 else 12.92 * v

/-- `AdvancedColorOps.labToRgb` (src/colors/groups.ts lines 394-416):
Lab back to XYZ, to linear RGB, gamma-compressed, scaled by 255, rounded
(`Math.round`) and clamped into `[0, 255]`. -/
noncomputable def labToRgb (lab : ℝ × ℝ × ℝ) : Rgb :=
  let y0 := (lab.1 + 16) / 116
  let x0 := lab.2.1 / 500 + y0
  let z0 := y0 - lab.2.2 / 200
  let x := 0.95047 * (if x0 * x0 * x0 > 0.008856 then x0 * x0 * x0
    else (x0 - 16 / 116) / 7.787)
  let y := 1.00000 * (if y0 * y0 * y0 > 0.008856 then y0 * y0 * y0
    else (y0 - 16 / 116) / 7.787)
  let z := 1.08883 * (if z0 * z0 * z0 > 0.008856 then z0 * z0 * z0
    else (z0 - 16 / 116) / 7.787)
  let r := x * 3.2406 + y * (-1.5372) + z * (-0.4986)
  let g := x * (-0.9689) + y * 1.8758 + z * 0.0415
  let b := x * 0.0557 + y * (-0.2040) + z * 1.0570
  { r := max 0 (min 255 ⌊gammaEncode r * 255 + 1 / 2⌋),
    g := max 0 (min 255 ⌊gammaEncode g * 255 + 1 / 2⌋),
    b := max 0 (min 255 ⌊gammaEncode b * 255 + 1 / 2⌋) }

/-! ### Helper lemmas -/

theorem norm360_eq (x y : ℚ) (k : ℤ) (hxy : x = y + 360 * k)
    (h0 : 0 ≤ y) (h1 : y < 360) : norm360 x = y := by
  subst hxy
  have hdiv : (y + 360 * (k : ℚ)) / 360 = y / 360 + (k : ℚ) := by
    field_simp
    ring
  have hfl : ⌊(y + 360 * (k : ℚ)) / 360⌋ = k := by
    rw [hdiv, Int.floor_add_int, Int.floor_eq_zero_iff.mpr, zero_add]
    constructor
    · positivity
    · rw [div_lt_one (by norm_num)]
      exact h1
  unfold norm360
  rw [hfl]
  ring

theorem tcSpin_eq (h amt : ℚ) (hq1 : -360 < h + amt) (hq2 : h + amt < 720) :
    tcSpin h amt =
      if h + amt < 0 then h + amt + 360
      else if h + amt < 360 then h + amt else h + amt - 360 := by
  rcases lt_or_le (h + amt) 0 with hneg | hpos
  · have htr : ratTrunc ((h + amt) / 360) = 0 := by
      unfold ratTrunc
      rw [if_neg, Int.floor_eq_zero_iff.mpr, neg_zero]
      · constructor
        · rw [le_neg, neg_zero]
          exact le_of_lt (div_neg_of_neg_of_pos hneg (by norm_num))
        · rw [neg_lt, lt_div_iff (by norm_num : (0:ℚ) < 360)]
          linarith
      · rw [not_le]
        exact div_neg_of_neg_of_pos hneg (by norm_num)
    simp only [tcSpin, htr]
    rw [if_pos (by push_cast; linarith), if_pos hneg]
    push_cast
    ring
  · rcases lt_or_le (h + amt) 360 with hlt | hge
    · have htr : ratTrunc ((h + amt) / 360) = 0 := by
        unfold ratTrunc
        rw [if_pos (div_nonneg hpos (by norm_num)), Int.floor_eq_zero_iff.mpr]
        constructor
        · exact div_nonneg hpos (by norm_num)
        · rw [div_lt_one (by norm_num)]
          exact hlt
      simp only [tcSpin, htr]
      rw [if_neg (by push_cast; linarith), if_neg (by linarith), if_pos hlt]
      push_cast
      ring
    · have htr : ratTrunc ((h + amt) / 360) = 1 := by
        unfold ratTrunc
        rw [if_pos (div_nonneg (by linarith) (by norm_num))]
        rw [Int.floor_eq_iff]
        constructor
        · push_cast
          rw [le_div_iff (by norm_num : (0:ℚ) < 360)]
          linarith
        · push_cast
          rw [div_lt_iff (by norm_num : (0:ℚ) < 360)]
          linarith
      simp only [tcSpin, htr]
      rw [if_neg (by push_cast; linarith), if_neg (by linarith), if_neg (by linarith)]
      push_cast
      ring

theorem tcSpin_eq_norm360 (h amt : ℚ) (h0 : 0 ≤ h) (h1 : h < 360)
    (ha1 : -360 < amt) (ha2 : amt < 360) :
    tcSpin h amt = norm360 (h + amt) := by
  rw [tcSpin_eq h amt (by linarith) (by linarith)]
  split_ifs with hc1 hc2
  · exact (norm360_eq _ _ (-1) (by push_cast; ring) (by linarith) (by linarith)).symm
  · exact (norm360_eq _ _ 0 (by push_cast; ring) (by linarith) (by linarith)).symm
  · exact (norm360_eq _ _ 1 (by push_cast; ring) (by linarith) (by linarith)).symm

theorem tcSpin_bounds (h amt : ℚ) (h0 : 0 ≤ h) (h1 : h ≤ 360)
    (ha1 : -360 < amt) (ha2 : amt < 360) :
    0 ≤ tcSpin h amt ∧ tcSpin h amt < 360 := by
  rw [tcSpin_eq h amt (by linarith) (by linarith)]
  split_ifs with hc1 hc2 <;> constructor <;> linarith

theorem hueWrap_eq_norm360 (x : ℚ) (hx1 : -360 < x) (hx2 : x < 720) :
    hueWrap x = norm360 x := by
  simp only [hueWrap]
  split_ifs with hneg hge hge
  · exact absurd hge (by push_cast; linarith)
  · exact (norm360_eq _ _ (-1) (by push_cast; ring) (by linarith) (by linarith)).symm
  · exact (norm360_eq _ _ 1 (by push_cast; ring) (by linarith) (by linarith)).symm
  · exact (norm360_eq _ _ 0 (by push_cast; ring) (by linarith) (by linarith)).symm

theorem hueDiffAdj_abs (s e : ℚ) (hs0 : 0 ≤ s) (hs1 : s < 360)
    (he0 : 0 ≤ e) (he1 : e < 360) : |hueDiffAdj s e| ≤ 180 := by
  unfold hueDiffAdj
  split_ifs with hgt hlt <;> rw [abs_le] <;> constructor <;> linarith

theorem interpolateHue_spec (s e t : ℚ) (hs0 : 0 ≤ s) (hs1 : s < 360)
    (he0 : 0 ≤ e) (he1 : e < 360) (ht0 : 0 ≤ t) (ht1 : t ≤ 1) :
    ∃ d : ℚ, |d| ≤ 180 ∧ (∃ k : ℤ, e - s = d + 360 * k) ∧
      interpolateHue s e t = norm360 (s + d * t) := by
  refine ⟨hueDiffAdj s e, hueDiffAdj_abs s e hs0 hs1 he0 he1, ?_, ?_⟩
  · unfold hueDiffAdj
    split_ifs with hgt hlt
    · exact ⟨1, by push_cast; ring⟩
    · exact ⟨-1, by push_cast; ring⟩
    · exact ⟨0, by push_cast; ring⟩
  · have habs : |hueDiffAdj s e * t| ≤ 180 := by
      rw [abs_mul]
      calc |hueDiffAdj s e| * |t| ≤ 180 * 1 := by
            apply mul_le_mul (hueDiffAdj_abs s e hs0 hs1 he0 he1)
              (by rw [abs_le]; constructor <;> linarith) (abs_nonneg t)
              (by norm_num)
        _ = 180 := by norm_num
    rw [abs_le] at habs
    unfold interpolateHue
    exact hueWrap_eq_norm360 _ (by linarith [habs.1]) (by linarith [habs.2])

/-- C1. Temperature shift uses shortest-arc hue interpolation: for every
valid hue (in `[0, 360)`, as produced by `toHsl`) and every nonzero
amount in `[-100, 100]`, `adjustTemperature` moves the hue toward 30°
(amount > 0) or 210° (amount < 0) by the fraction `|amount|/100` of a
signed hue difference `d` with `|d| ≤ 180` that is congruent to
`target - hue` modulo 360 — i.e. along the shorter way around the
circle. In particular a hue of 350° warmed with amount 50 lands at 10°,
on the short arc from 350° through 0° to 30° (nowhere near 190°). -/
theorem temperature_shift_shortest_arc :
    (∀ h amount : ℚ, 0 ≤ h → h < 360 → amount ≠ 0 → -100 ≤ amount →
      amount ≤ 100 →
      ∃ d : ℚ, |d| ≤ 180 ∧
        (∃ k : ℤ, (if 0 < amount then (30 : ℚ) else 210) - h = d + 360 * k) ∧
        adjustTemperatureHue h amount = norm360 (h + d * (|amount| / 100))) ∧
    adjustTemperatureHue 350 50 = 10 ∧ adjustTemperatureHue 350 50 ≤ 30 := by
  refine ⟨?_,
    by norm_num [adjustTemperatureHue, interpolateHue, hueDiffAdj, hueWrap],
    by norm_num [adjustTemperatureHue, interpolateHue, hueDiffAdj, hueWrap]⟩
  intro h amount h0 h1 hne hlo hhi
  by_cases hpos : 0 < amount
  · obtain ⟨d, hd, hk, heq⟩ :=
      interpolateHue_spec h 30 (amount / 100) h0 h1 (by norm_num) (by norm_num)
        (by positivity) (by linarith)
    refine ⟨d, hd, ?_, ?_⟩
    · rw [if_pos hpos]
      exact hk
    · rw [abs_of_pos hpos]
      simpa only [adjustTemperatureHue, if_pos (show amount > 0 from hpos)]
        using heq
  · have hneg : amount < 0 := lt_of_le_of_ne (not_lt.mp hpos) hne
    obtain ⟨d, hd, hk, heq⟩ :=
      interpolateHue_spec h 210 (|amount| / 100) h0 h1 (by norm_num) (by norm_num)
        (by positivity) (by rw [abs_of_neg hneg]; linarith)
    refine ⟨d, hd, ?_, ?_⟩
    · rw [if_neg hpos]
      exact hk
    · simpa only [adjustTemperatureHue, if_neg (show ¬amount > 0 from hpos)]
        using heq

/-- Witness for C1: instantiation at hue 120 and amount 50. -/
theorem temperature_shift_shortest_arc_witness :
    ∃ d : ℚ, |d| ≤ 180 ∧
      (∃ k : ℤ, (if 0 < (50 : ℚ) then (30 : ℚ) else 210) - 120 = d + 360 * k) ∧
      adjustTemperatureHue 120 50 = norm360 (120 + d * (|(50 : ℚ)| / 100)) :=
  temperature_shift_shortest_arc.1 120 50 (by norm_num) (by norm_num)
    (by norm_num) (by norm_num) (by norm_num)

/-- C3 counterexample: the analogous harmony of the valid base color with
hue 0° has five colors, not six, and contains neither of the claimed
±15° spins (15° and 345°). -/
theorem analogous_not_six_neighbors :
    ¬(analogousHarmonyHues 0).length = 6 ∧
      (15 : ℚ) ∉ analogousHarmonyHues 0 ∧
      (345 : ℚ) ∉ analogousHarmonyHues 0 := by
  have hval : analogousHarmonyHues 0 = [0, 30, 330, 60, 300] := by
    unfold analogousHarmonyHues
    rw [tcSpin_eq 0 30 (by norm_num) (by norm_num),
      tcSpin_eq 0 (-30) (by norm_num) (by norm_num),
      tcSpin_eq 0 60 (by norm_num) (by norm_num),
      tcSpin_eq 0 (-60) (by norm_num) (by norm_num)]
    norm_num
  rw [hval]
  refine ⟨by norm_num, ?_, ?_⟩ <;> simp

/-- C3 as amended: the analogous harmony of a valid base color consists
of five colors — the base itself followed by hue-spins of +30°, -30°,
+60° and -60° from the base (each reduced modulo 360 into `[0, 360)`). -/
theorem analogous_five_spins :
    ∀ h : ℚ, 0 ≤ h → h < 360 →
      analogousHarmonyHues h =
        [h, norm360 (h + 30), norm360 (h - 30), norm360 (h + 60),
          norm360 (h - 60)] := by
  intro h h0 h1
  unfold analogousHarmonyHues
  rw [tcSpin_eq_norm360 h 30 h0 h1 (by norm_num) (by norm_num),
    tcSpin_eq_norm360 h (-30) h0 h1 (by norm_num) (by norm_num),
    tcSpin_eq_norm360 h 60 h0 h1 (by norm_num) (by norm_num),
    tcSpin_eq_norm360 h (-60) h0 h1 (by norm_num) (by norm_num)]
  norm_num [sub_eq_add_neg]

/-- Witness for C3's amended theorem: instantiation at base hue 200. -/
theorem analogous_five_spins_witness :
    analogousHarmonyHues 200 =
      [200, norm360 (200 + 30), norm360 (200 - 30), norm360 (200 + 60),
        norm360 (200 - 60)] :=
  analogous_five_spins 200 (by norm_num) (by norm_num)

/-- C5 counterexample: with `fftSize = 1 < 2` (and otherwise valid
parameters) `createMelFilterbank` does not return an empty sequence — it
silently produces a filter. -/
theorem filterbank_not_empty_on_small_fft :
    createMelFilterbank 1 1 44100 ≠ [] := by
  intro h
  have hlen := congrArg List.length h
  simp [createMelFilterbank] at hlen

/-- C5 as amended: `createMelFilterbank` performs no validation at all:
for every configuration it returns exactly `numFilters` filters — empty
precisely when `numFilters < 1` (the loop body never runs), and a
non-empty, silently produced filter sequence even when `fftSize < 2` or
`sampleRate ≤ 0`. -/
theorem filterbank_length_eq_numFilters :
    ∀ (numFilters fftSize : ℕ) (sampleRate : ℝ),
      (createMelFilterbank numFilters fftSize sampleRate).length =
        numFilters := by
  intro n f s
  simp [createMelFilterbank]

theorem melToHz_le_melToHz {x y : ℝ} (hxy : x ≤ y) : melToHz x ≤ melToHz y := by
  unfold melToHz
  have hp : (10 : ℝ) ^ (x / 2595) ≤ (10 : ℝ) ^ (y / 2595) :=
    (Real.rpow_le_rpow_left_iff (by norm_num : (1 : ℝ) < 10)).mpr
      (by linarith)
  linarith

theorem hzToMel_zero : hzToMel 0 = 0 := by
  simp [hzToMel]

theorem hzToMel_nonneg {hz : ℝ} (h : 0 ≤ hz) : 0 ≤ hzToMel hz := by
  unfold hzToMel
  have hl : 0 ≤ Real.logb 10 (1 + hz / 700) :=
    Real.logb_nonneg (by norm_num) (by linarith [div_nonneg h (by norm_num : (0:ℝ) ≤ 700)])
  linarith

/-- C8. Filterbank geometric invariant: for every valid configuration
(`numFilters ≥ 1`, `fftSize ≥ 2`, `sampleRate > 0`) every filter of the
built filterbank satisfies `leftBin ≤ centerBin ≤ rightBin`, and the
`centerBin` values of the filters are non-decreasing along the sequence. -/
theorem filterbank_bins_monotone :
    ∀ (numFilters fftSize : ℕ) (sampleRate : ℝ),
      1 ≤ numFilters → 2 ≤ fftSize → 0 < sampleRate →
      (∀ flt ∈ createMelFilterbank numFilters fftSize sampleRate,
        flt.leftBin ≤ flt.centerBin ∧ flt.centerBin ≤ flt.rightBin) ∧
      (∀ i j : ℕ, ∀ hij : i ≤ j,
        ∀ hj : j < (createMelFilterbank numFilters fftSize sampleRate).length,
        ((createMelFilterbank numFilters fftSize sampleRate).get
            ⟨i, lt_of_le_of_lt hij hj⟩).centerBin ≤
          ((createMelFilterbank numFilters fftSize sampleRate).get
            ⟨j, hj⟩).centerBin) := by
  intro n f s hn hf hs
  have hfpos : (0 : ℝ) < (f : ℝ) := by
    have : 0 < f := by omega
    exact_mod_cast this
  have hbinw : (0 : ℝ) < s / (f : ℝ) := div_pos hs hfpos
  have hbin : ∀ {x y : ℝ}, x ≤ y →
      ⌊melToHz x / (s / (f : ℝ))⌋ ≤ ⌊melToHz y / (s / (f : ℝ))⌋ := by
    intro x y hxy
    exact Int.floor_le_floor ((div_le_div_iff_of_pos_right hbinw).mpr
      (melToHz_le_melToHz hxy))
  have hstep : 0 ≤ (hzToMel (s / 2) - hzToMel 0) / ((n : ℝ) + 1) := by
    apply div_nonneg
    · rw [hzToMel_zero, sub_zero]
      exact hzToMel_nonneg (by positivity)
    · positivity
  constructor
  · intro flt hflt
    simp only [createMelFilterbank, List.mem_map, List.mem_range] at hflt
    obtain ⟨i, hi, rfl⟩ := hflt
    constructor
    · apply hbin
      have := mul_le_mul_of_nonneg_right
        (show (i : ℝ) ≤ (i : ℝ) + 1 by linarith) hstep
      linarith
    · apply hbin
      have := mul_le_mul_of_nonneg_right
        (show (i : ℝ) + 1 ≤ (i : ℝ) + 2 by linarith) hstep
      linarith
  · intro i j hij hj
    have hj' := hj
    simp only [createMelFilterbank, List.length_map, List.length_range] at hj'
    simp only [createMelFilterbank, List.get_eq_getElem, List.getElem_map,
      List.getElem_range]
    apply hbin
    have hcast : (i : ℝ) + 1 ≤ (j : ℝ) + 1 := by
      have : (i : ℝ) ≤ (j : ℝ) := by exact_mod_cast hij
      linarith
    have := mul_le_mul_of_nonneg_right hcast hstep
    linarith

/-- Witness for C8: the single filter of the filterbank with
`numFilters = 1`, `fftSize = 2`, `sampleRate = 1` has
`leftBin ≤ centerBin`. -/
theorem filterbank_bins_monotone_witness :
    ((createMelFilterbank 1 2 1).get
        ⟨0, by simp [createMelFilterbank]⟩).leftBin ≤
      ((createMelFilterbank 1 2 1).get
        ⟨0, by simp [createMelFilterbank]⟩).centerBin :=
  ((filterbank_bins_monotone 1 2 1 (by norm_num) (by norm_num)
      (by norm_num)).1 _ (List.get_mem _ _ _)).1

/-- C6 at the failing input: a degenerate filter whose three bins
coincide (here `(0,0,0)`, applied to the frame `[5]`) makes the weight
division `(rightBin - bin) / (rightBin - centerBin) = 0 / 0`, so the
mel-spectrum value is non-finite (`NaN` in the source), not a
well-defined finite number. -/
theorem mel_value_nan_on_degenerate :
    melValue [(5 : ℚ)] ⟨0, 0, 0⟩ = none := by
  simp [melValue, triWeight, safeDiv, listGetZ, List.range_succ]

theorem beatObserve_low (k : ℕ) (hk : k < 43) :
    beatObserve (List.replicate k (1/5 : ℚ)) (1/5) =
      (List.replicate (k + 1) (1/5 : ℚ), false) := by
  have hrep : List.replicate k (1/5 : ℚ) ++ [(1/5 : ℚ)] =
      List.replicate (k + 1) (1/5 : ℚ) := (List.replicate_succ' _ _).symm
  have hne : ((k : ℚ) + 1) ≠ 0 := by positivity
  have hsum : (List.replicate (k + 1) (1/5 : ℚ)).sum = ((k : ℚ) + 1) * (1/5) := by
    rw [List.sum_replicate, nsmul_eq_mul]
    push_cast
    ring
  simp only [beatObserve, hrep, List.length_replicate]
  rw [if_neg (by omega), hsum]
  simp only [List.length_replicate]
  have havg : ((k : ℚ) + 1) * (1/5) / ((k + 1 : ℕ) : ℚ) = 1/5 := by
    push_cast
    rw [mul_comm, mul_div_assoc, div_self hne, mul_one]
  rw [havg, if_neg (by rw [beatThreshold]; norm_num)]

theorem beatObserve_spike :
    beatObserve (List.replicate 42 (1/5 : ℚ)) (1/2) =
      (List.replicate 42 (1/5 : ℚ) ++ [(1/2 : ℚ)], true) := by
  have hsum : (List.replicate 42 (1/5 : ℚ) ++ [(1/2 : ℚ)]).sum = 89/10 := by
    rw [List.sum_append, List.sum_replicate, nsmul_eq_mul]
    norm_num
  simp only [beatObserve, List.length_append, List.length_replicate,
    List.length_singleton]
  rw [if_neg (by omega), hsum]
  rw [if_pos (by rw [beatThreshold]; norm_num)]

theorem beatRun_low (k : ℕ) (hk : k ≤ 43) :
    (List.replicate k (1/5 : ℚ)).foldl beatFold ([], []) =
      (List.replicate k (1/5 : ℚ), List.replicate k false) := by
  induction k with
  | zero => simp
  | succ m ih =>
    rw [List.replicate_succ', List.foldl_append, ih (by omega)]
    simp only [List.foldl_cons, List.foldl_nil, beatFold]
    rw [beatObserve_low m (by omega)]
    rw [← List.replicate_succ', ← List.replicate_succ']

/-- C7. Beat detection on the synthetic spike sequence: 42 energy
samples at 0.2 followed by one sample at 0.5 produce `isBeat = false` on
each low sample and `isBeat = true` on the spike (the beat rule compares
each sample against the rolling mean times the 1.3 threshold). -/
theorem beat_spike_sequence :
    beatRun (List.replicate 42 (1/5 : ℚ) ++ [(1/2 : ℚ)]) =
      List.replicate 42 false ++ [true] := by
  unfold beatRun
  rw [List.foldl_append, beatRun_low 42 (by omega)]
  simp only [List.foldl_cons, List.foldl_nil, beatFold]
  rw [beatObserve_spike]

theorem clampQ_le (lo hi x : ℚ) : clampQ lo hi x ≤ hi := min_le_left _ _

theorem clampQ_ge (lo hi x : ℚ) (h : lo ≤ hi) : lo ≤ clampQ lo hi x :=
  le_min h (le_max_left _ _)

theorem tcPercent_mem (x : ℚ) : 0 ≤ tcPercent x ∧ tcPercent x ≤ 1 := by
  unfold tcPercent
  split_ifs <;> exact ⟨clampQ_ge _ _ _ (by norm_num), clampQ_le _ _ _⟩

theorem validHsl_tcFromHsl (h s l : ℚ) : validHsl (tcFromHsl h s l) := by
  simp only [validHsl, tcFromHsl]
  exact ⟨clampQ_ge _ _ _ (by norm_num), clampQ_le _ _ _, (tcPercent_mem s).1,
    (tcPercent_mem s).2, (tcPercent_mem l).1, (tcPercent_mem l).2,
    by norm_num, by norm_num⟩

theorem validHsl_tcDarken (c : Hsl) (amt : ℚ) (hc : validHsl c) :
    validHsl (tcDarken c amt) := by
  obtain ⟨h1, h2, h3, h4, _, _, h7, h8⟩ := hc
  exact ⟨h1, h2, h3, h4, clampQ_ge _ _ _ (by norm_num), clampQ_le _ _ _, h7, h8⟩

theorem validHsl_tcLighten (c : Hsl) (amt : ℚ) (hc : validHsl c) :
    validHsl (tcLighten c amt) := by
  obtain ⟨h1, h2, h3, h4, _, _, h7, h8⟩ := hc
  exact ⟨h1, h2, h3, h4, clampQ_ge _ _ _ (by norm_num), clampQ_le _ _ _, h7, h8⟩

theorem validHsl_tcSaturate (c : Hsl) (amt : ℚ) (hc : validHsl c) :
    validHsl (tcSaturate c amt) := by
  obtain ⟨h1, h2, _, _, h5, h6, h7, h8⟩ := hc
  exact ⟨h1, h2, clampQ_ge _ _ _ (by norm_num), clampQ_le _ _ _, h5, h6, h7, h8⟩

theorem validHsl_tcSetAlpha (c : Hsl) (a : ℚ) (hc : validHsl c) :
    validHsl (tcSetAlpha c a) := by
  obtain ⟨h1, h2, h3, h4, h5, h6, _, _⟩ := hc
  refine ⟨h1, h2, h3, h4, h5, h6, ?_, ?_⟩ <;>
    · simp only [tcSetAlpha]
      split_ifs with hcond
      · first
        | exact hcond.1
        | exact hcond.2
      · norm_num

theorem validHsl_tcSpinC (c : Hsl) (amt : ℚ) (hc : validHsl c)
    (ha1 : -360 < amt) (ha2 : amt < 360) : validHsl (tcSpinC c amt) := by
  obtain ⟨h1, h2, h3, h4, h5, h6, h7, h8⟩ := hc
  have hb := tcSpin_bounds c.h amt h1 h2 ha1 ha2
  exact ⟨hb.1, le_of_lt hb.2, h3, h4, h5, h6, h7, h8⟩

theorem validHsl_blackHsl : validHsl blackHsl := by
  simp only [validHsl, blackHsl]
  norm_num

/-- C4. The reactive mapper never rejects a frame: for every feature
sample — including samples whose energy, spectral centroid or dominant
frequency lie outside `[0, 1]` — and every smoothing state,
`processAudioData` produces its full palette, and every color in it is
valid (all channels clamped into tinycolor's ranges); no emitted color
is undefined. -/
theorem reactive_palette_always_valid :
    ∀ (data : AudioAnalysisData) (st : SmoothState),
      ∀ c ∈ (processAudioData data st).2, validHsl c := by
  intro data st
  simp only [processAudioData, List.forall_mem_cons, List.forall_mem_nil,
    and_true]
  refine ⟨?_, ?_, ?_, ?_, ?_, ?_, ?_, ?_, ?_, ?_, ?_, ?_, ?_, ?_, ?_, ?_,
    ?_, ?_, ?_, ?_, ?_, ?_⟩
  · exact validHsl_tcDarken _ _ (validHsl_tcFromHsl _ _ _)
  · exact validHsl_tcSetAlpha _ _ (validHsl_tcFromHsl _ _ _)
  · exact validHsl_tcSetAlpha _ _
      (validHsl_tcDarken _ _ (validHsl_tcFromHsl _ _ _))
  · exact validHsl_tcSaturate _ _
      (validHsl_tcLighten _ _ (validHsl_tcFromHsl _ _ _))
  · exact validHsl_tcLighten _ _ (validHsl_tcSpinC _ _
      (validHsl_tcFromHsl _ _ _) (by norm_num) (by norm_num))
  · exact validHsl_tcSpinC _ _
      (validHsl_tcDarken _ _ (validHsl_tcFromHsl _ _ _))
      (by norm_num) (by norm_num)
  · exact validHsl_tcDarken _ _ (validHsl_tcFromHsl _ _ _)
  · exact validHsl_tcDarken _ _ (validHsl_tcFromHsl _ _ _)
  · exact validHsl_tcSaturate _ _
      (validHsl_tcLighten _ _ (validHsl_tcFromHsl _ _ _))
  · exact validHsl_tcSaturate _ _
      (validHsl_tcLighten _ _ (validHsl_tcFromHsl _ _ _))
  · split_ifs
    · exact validHsl_tcSaturate _ _
        (validHsl_tcLighten _ _ (validHsl_tcFromHsl _ _ _))
    · exact validHsl_tcDarken _ _ (validHsl_tcFromHsl _ _ _)
  · split_ifs
    · exact validHsl_blackHsl
    · exact validHsl_tcLighten _ _ (validHsl_tcFromHsl _ _ _)
  · exact validHsl_tcLighten _ _ (validHsl_tcSpinC _ _
      (validHsl_tcFromHsl _ _ _) (by norm_num) (by norm_num))
  · exact validHsl_tcLighten _ _ (validHsl_tcSpinC _ _
      (validHsl_tcFromHsl _ _ _) (by norm_num) (by norm_num))
  · exact validHsl_tcLighten _ _ (validHsl_tcFromHsl _ _ _)
  · exact validHsl_tcSetAlpha _ _
      (validHsl_tcDarken _ _ (validHsl_tcFromHsl _ _ _))
  · exact validHsl_tcSaturate _ _
      (validHsl_tcLighten _ _ (validHsl_tcFromHsl _ _ _))
  · exact validHsl_tcSaturate _ _
      (validHsl_tcLighten _ _ (validHsl_tcFromHsl _ _ _))
  · exact validHsl_tcSpinC _ _
      (validHsl_tcDarken _ _ (validHsl_tcFromHsl _ _ _))
      (by norm_num) (by norm_num)
  · exact validHsl_tcDarken _ _ (validHsl_tcFromHsl _ _ _)
  · exact validHsl_tcSetAlpha _ _
      (validHsl_tcDarken _ _ (validHsl_tcFromHsl _ _ _))
  · exact ⟨validHsl_tcSaturate _ _
      (validHsl_tcLighten _ _ (validHsl_tcFromHsl _ _ _)),
      List.forall_mem_nil _⟩

/-- Witness for C4: the palette produced for an out-of-range feature
sample (energy 5, spectral centroid -3, dominant frequency 2) contains
the clamped editor-background color, which is valid. -/
theorem reactive_palette_always_valid_witness :
    validHsl ⟨216, 1, 0, 1⟩ :=
  reactive_palette_always_valid ⟨5, false, 0, -3, 2⟩ ⟨0, 50, 50⟩
    ⟨216, 1, 0, 1⟩ (by
      simp only [processAudioData, List.mem_cons]
      left
      norm_num [smooth, smoothingFactor, tcFromHsl, tcPercent, clampQ,
        tcDarken, min_def, max_def])

/-- C10. Beat transients do not corrupt the smoothed state: the
post-update smoothing state of `processAudioData` is the same whatever
the value of the `isBeat` flag — the beat boost only changes the colors
emitted for the frame. -/
theorem beat_flag_not_in_state :
    ∀ (data : AudioAnalysisData) (st : SmoothState) (b : Bool),
      (processAudioData { data with isBeat := b } st).1 =
        (processAudioData data st).1 :=
  fun _ _ _ => rfl

theorem jsRound_intCast (r : ℤ) : jsRound (r : ℚ) = r := by
  unfold jsRound
  rw [Int.floor_int_add]
  norm_num

theorem clampQ_eq_self (lo hi x : ℚ) (h1 : lo ≤ x) (h2 : x ≤ hi) :
    clampQ lo hi x = x := by
  unfold clampQ
  rw [max_eq_right h1, min_eq_right h2]

theorem tcMix_zero (s e : Rgb) (hs : validRgb s) : tcMix s e 0 = s := by
  obtain ⟨a1, a2, a3, a4, a5, a6⟩ := hs
  simp only [tcMix]
  rw [show ((0 : ℚ) / 100) = 0 from by norm_num]
  simp only [mul_zero, zero_add]
  rw [clampQ_eq_self _ _ _ (by exact_mod_cast a1) (by exact_mod_cast a2),
    clampQ_eq_self _ _ _ (by exact_mod_cast a3) (by exact_mod_cast a4),
    clampQ_eq_self _ _ _ (by exact_mod_cast a5) (by exact_mod_cast a6),
    jsRound_intCast, jsRound_intCast, jsRound_intCast]

theorem tcMix_hundred (s e : Rgb) (he : validRgb e) : tcMix s e 100 = e := by
  obtain ⟨b1, b2, b3, b4, b5, b6⟩ := he
  simp only [tcMix]
  rw [show ((100 : ℚ) / 100) = 1 from by norm_num]
  simp only [mul_one, sub_add_cancel]
  rw [clampQ_eq_self _ _ _ (by exact_mod_cast b1) (by exact_mod_cast b2),
    clampQ_eq_self _ _ _ (by exact_mod_cast b3) (by exact_mod_cast b4),
    clampQ_eq_self _ _ _ (by exact_mod_cast b5) (by exact_mod_cast b6),
    jsRound_intCast, jsRound_intCast, jsRound_intCast]

/-- C9. Linear gradient contract: for valid endpoint colors and
`steps ≥ 2`, `generateGradient` returns exactly `steps` colors, the
`i`-th being the tinycolor mix of start and end at `i/(steps-1)`, with
the first color equal to the start color and the last equal to the end
color; for `steps < 2` or a missing (unparseable) endpoint it returns
the empty list. -/
theorem gradient_contract :
    (∀ (s e : Rgb) (steps : ℤ), validRgb s → validRgb e → 2 ≤ steps →
      (generateGradient (some s) (some e) steps).length = steps.toNat ∧
      (∀ h0 : 0 < (generateGradient (some s) (some e) steps).length,
        (generateGradient (some s) (some e) steps).get ⟨0, h0⟩ = s) ∧
      (∀ hl : (generateGradient (some s) (some e) steps).length - 1 <
          (generateGradient (some s) (some e) steps).length,
        (generateGradient (some s) (some e) steps).get
          ⟨(generateGradient (some s) (some e) steps).length - 1, hl⟩ = e) ∧
      (∀ i : ℕ, ∀ hi : i < (generateGradient (some s) (some e) steps).length,
        (generateGradient (some s) (some e) steps).get ⟨i, hi⟩ =
          tcMix s e ((i : ℚ) / ((steps : ℚ) - 1) * 100))) ∧
    (∀ (so eo : Option Rgb) (steps : ℤ), steps < 2 →
      generateGradient so eo steps = []) ∧
    (∀ (eo : Option Rgb) (steps : ℤ), generateGradient none eo steps = []) ∧
    (∀ (so : Option Rgb) (steps : ℤ), generateGradient so none steps = []) := by
  refine ⟨?_, ?_, ?_, ?_⟩
  · intro s e steps hs he hst
    have hnlt : ¬steps < 2 := not_lt.mpr hst
    have hget : ∀ i : ℕ,
        ∀ hi : i < (generateGradient (some s) (some e) steps).length,
        (generateGradient (some s) (some e) steps).get ⟨i, hi⟩ =
          tcMix s e ((i : ℚ) / ((steps : ℚ) - 1) * 100) := by
      intro i hi
      simp [generateGradient, hnlt, List.get_eq_getElem]
    have hlen :
        (generateGradient (some s) (some e) steps).length = steps.toNat := by
      simp [generateGradient, hnlt]
    refine ⟨hlen, ?_, ?_, hget⟩
    · intro h0
      rw [hget 0 h0,
        show ((0 : ℕ) : ℚ) / ((steps : ℚ) - 1) * 100 = 0 from by norm_num]
      exact tcMix_zero s e hs
    · intro hl
      rw [hget _ hl]
      have hnn : (0 : ℤ) ≤ steps := by omega
      have h1n : 1 ≤ steps.toNat := by omega
      have h3 : ((steps.toNat : ℚ)) = (steps : ℚ) := by
        exact_mod_cast Int.toNat_of_nonneg hnn
      have hq : (((generateGradient (some s) (some e) steps).length - 1 : ℕ) :
          ℚ) = (steps : ℚ) - 1 := by
        rw [hlen, Nat.cast_sub h1n, Nat.cast_one, h3]
      have hne : ((steps : ℚ) - 1) ≠ 0 := by
        have h2q : (2 : ℚ) ≤ (steps : ℚ) := by exact_mod_cast hst
        intro hzero
        rw [sub_eq_zero] at hzero
        rw [hzero] at h2q
        norm_num at h2q
      rw [hq, div_self hne, one_mul]
      exact tcMix_hundred s e he
  · intro so eo steps h
    cases so <;> cases eo <;> simp [generateGradient, h]
  · intro eo steps
    cases eo <;> simp [generateGradient]
  · intro so steps
    cases so <;> simp [generateGradient]

/-- Witness for C9: the five-step gradient from red to blue has exactly
five colors. -/
theorem gradient_contract_witness :
    (generateGradient (some ⟨255, 0, 0⟩) (some ⟨0, 0, 255⟩) 5).length =
      (5 : ℤ).toNat :=
  (gradient_contract.1 ⟨255, 0, 0⟩ ⟨0, 0, 255⟩ 5 (by norm_num [validRgb])
    (by norm_num [validRgb]) (by norm_num)).1

theorem gammaDecode_mem (u : ℝ) (h0 : 0 ≤ u) (h1 : u ≤ 1) :
    0 ≤ gammaDecode u ∧ gammaDecode u ≤ 1 := by
  unfold gammaDecode
  split_ifs with h
  · constructor
    · exact Real.rpow_nonneg (by positivity) _
    · exact Real.rpow_le_one (by positivity)
        (by rw [div_le_one (by norm_num)]; linarith) (by norm_num)
  · constructor
    · positivity
    · rw [div_le_one (by norm_num)]
      linarith

theorem gammaEncode_gammaDecode (c : ℤ) (h0 : 0 ≤ c) (h255 : c ≤ 255) :
    gammaEncode (gammaDecode ((c : ℝ) / 255)) = (c : ℝ) / 255 := by
  have hc0 : (0 : ℝ) ≤ (c : ℝ) := by exact_mod_cast h0
  rcases le_or_lt (c : ℝ) 10 with hle | hgt
  · have hu : ¬((c : ℝ) / 255 > 0.04045) := by
      rw [not_lt, div_le_iff (by norm_num : (0 : ℝ) < 255)]
      linarith
    have hv : ¬((c : ℝ) / 255 / 12.92 > 0.0031308) := by
      rw [not_lt, div_div, div_le_iff (by norm_num : (0 : ℝ) < 255 * 12.92)]
      linarith
    unfold gammaDecode gammaEncode
    rw [if_neg hu, if_neg hv]
    field_simp
    ring
  · have hc11 : (11 : ℝ) ≤ (c : ℝ) := by
      have h10 : (10 : ℤ) < c := by exact_mod_cast hgt
      exact_mod_cast h10
    have hu : (c : ℝ) / 255 > 0.04045 := by
      rw [gt_iff_lt, lt_div_iff (by norm_num : (0 : ℝ) < 255)]
      linarith
    have ha0 : (0.093 : ℝ) ≤ ((c : ℝ) / 255 + 0.055) / 1.055 := by
      rw [le_div_iff (by norm_num : (0 : ℝ) < 1.055)]
      have h11 : (11 : ℝ) / 255 ≤ (c : ℝ) / 255 :=
        (div_le_div_right (by norm_num)).mpr hc11
      have : (0.093 : ℝ) * 1.055 ≤ 11 / 255 + 0.055 := by norm_num
      linarith
    have hdec : gammaDecode ((c : ℝ) / 255) =
        (((c : ℝ) / 255 + 0.055) / 1.055) ^ (2.4 : ℝ) := by
      unfold gammaDecode
      rw [if_pos hu]
    have hpow5 : ∀ q : ℝ, 0 ≤ q → (q ^ (2.4 : ℝ)) ^ (5 : ℕ) = q ^ (12 : ℕ) := by
      intro q hq
      rw [← Real.rpow_natCast (q ^ (2.4 : ℝ)) 5, ← Real.rpow_mul hq,
        show ((2.4 : ℝ) * (5 : ℕ)) = ((12 : ℕ) : ℝ) by norm_num,
        Real.rpow_natCast]
    have hv : (((c : ℝ) / 255 + 0.055) / 1.055) ^ (2.4 : ℝ) > 0.0031308 := by
      have hmono : (0.093 : ℝ) ^ (2.4 : ℝ) ≤
          (((c : ℝ) / 255 + 0.055) / 1.055) ^ (2.4 : ℝ) :=
        Real.rpow_le_rpow (by norm_num) ha0 (by norm_num)
      have hbase : (0.0031308 : ℝ) < (0.093 : ℝ) ^ (2.4 : ℝ) := by
        apply lt_of_pow_lt_pow_left 5 (Real.rpow_nonneg (by norm_num) _)
        rw [hpow5 0.093 (by norm_num)]
        norm_num
      linarith
    have hback : ((((c : ℝ) / 255 + 0.055) / 1.055) ^ (2.4 : ℝ)) ^
        ((1 : ℝ) / 2.4) = ((c : ℝ) / 255 + 0.055) / 1.055 := by
      rw [← Real.rpow_mul (by positivity),
        show ((2.4 : ℝ) * (1 / 2.4)) = 1 by norm_num, Real.rpow_one]
    unfold gammaEncode
    rw [hdec, if_pos hv, hback]
    field_simp
    ring

theorem labF_cube_id (t : ℝ) (ht : 0 ≤ t) :
    (if labF t * labF t * labF t > 0.008856 then labF t * labF t * labF t
      else (labF t - 16 / 116) / 7.787) = t := by
  have hcube_hi : t > 0.008856 →
      t ^ ((1 : ℝ) / 3) * t ^ ((1 : ℝ) / 3) * t ^ ((1 : ℝ) / 3) = t := by
    intro _
    rw [show t ^ ((1 : ℝ) / 3) * t ^ ((1 : ℝ) / 3) * t ^ ((1 : ℝ) / 3) =
      (t ^ ((1 : ℝ) / 3)) ^ (3 : ℕ) by ring]
    rw [← Real.rpow_natCast (t ^ ((1 : ℝ) / 3)) 3, ← Real.rpow_mul ht,
      show ((1 : ℝ) / 3 * (3 : ℕ)) = 1 by norm_num, Real.rpow_one]
  have hcube_lo : ¬t > 0.008856 →
      (7.787 * t + 16 / 116) * (7.787 * t + 16 / 116) *
        (7.787 * t + 16 / 116) ≤ 0.008856 := by
    intro hb
    have htle : t ≤ 0.008856 := not_lt.mp hb
    have h1 : (0 : ℝ) ≤ 7.787 * t + 16 / 116 := by linarith
    have hwm : 7.787 * t + 16 / 116 ≤ 7.787 * 0.008856 + 16 / 116 := by
      linarith
    have hm3 : (7.787 * t + 16 / 116) * (7.787 * t + 16 / 116) *
        (7.787 * t + 16 / 116) ≤ (7.787 * 0.008856 + 16 / 116) *
        (7.787 * 0.008856 + 16 / 116) * (7.787 * 0.008856 + 16 / 116) := by
      nlinarith
    have hconst : ((7.787 : ℝ) * 0.008856 + 16 / 116) * (7.787 * 0.008856 +
        16 / 116) * (7.787 * 0.008856 + 16 / 116) ≤ 0.008856 := by
      norm_num
    linarith
  unfold labF
  split_ifs with h1 h2 h3
  · exact hcube_hi h1
  · exact absurd (show t ^ ((1 : ℝ) / 3) * t ^ ((1 : ℝ) / 3) *
      t ^ ((1 : ℝ) / 3) > 0.008856 by rw [hcube_hi h1]; exact h1) h2
  · exact absurd h3 (not_lt.mpr (hcube_lo h1))
  · field_simp

theorem rpow_five_twelfths_le (x q : ℝ) (hx : 0 ≤ x) (hq : 0 ≤ q)
    (h : q ^ (12 : ℕ) ≤ x ^ (5 : ℕ)) : q ≤ x ^ ((1 : ℝ) / 2.4) := by
  apply le_of_pow_le_pow_left (show (12 : ℕ) ≠ 0 by norm_num)
    (Real.rpow_nonneg hx _)
  rw [← Real.rpow_natCast (x ^ ((1 : ℝ) / 2.4)) 12, ← Real.rpow_mul hx,
    show ((1 : ℝ) / 2.4 * (12 : ℕ)) = ((5 : ℕ) : ℝ) by norm_num,
    Real.rpow_natCast]
  exact h

theorem rpow_five_twelfths_ge (x q : ℝ) (hx : 0 ≤ x) (hq : 0 ≤ q)
    (h : x ^ (5 : ℕ) ≤ q ^ (12 : ℕ)) : x ^ ((1 : ℝ) / 2.4) ≤ q := by
  apply le_of_pow_le_pow_left (show (12 : ℕ) ≠ 0 by norm_num) hq
  rw [← Real.rpow_natCast (x ^ ((1 : ℝ) / 2.4)) 12, ← Real.rpow_mul hx,
    show ((1 : ℝ) / 2.4 * (12 : ℕ)) = ((5 : ℕ) : ℝ) by norm_num,
    Real.rpow_natCast]
  exact h

theorem rpow_five_twelfths_diff (a b : ℝ) (ha : (0.0031308 : ℝ) ≤ a)
    (hab : a ≤ b) :
    b ^ ((1 : ℝ) / 2.4) - a ^ ((1 : ℝ) / 2.4) ≤ 12.7 * (b - a) := by
  have ha0 : (0 : ℝ) < a := lt_of_lt_of_le (by norm_num) ha
  have hb0 : (0 : ℝ) < b := lt_of_lt_of_le ha0 hab
  have hexp : ((1 : ℝ) / 2.4) = 5 / 12 := by norm_num
  have hs0 : (0 : ℝ) ≤ (b - a) / a := div_nonneg (by linarith) ha0.le
  have hBer : (1 + (b - a) / a) ^ ((5 : ℝ) / 12) ≤
      1 + (5 : ℝ) / 12 * ((b - a) / a) :=
    rpow_one_add_le_one_add_mul_self (by linarith) (by norm_num) (by norm_num)
  have hdivba : b / a = 1 + (b - a) / a := by
    field_simp
  have hsplit : b ^ ((5 : ℝ) / 12) =
      a ^ ((5 : ℝ) / 12) * (b / a) ^ ((5 : ℝ) / 12) := by
    rw [Real.div_rpow hb0.le ha0.le,
      mul_div_cancel₀ _ (ne_of_gt (Real.rpow_pos_of_pos ha0 _))]
  have hApos : (0 : ℝ) < a ^ ((5 : ℝ) / 12) := Real.rpow_pos_of_pos ha0 _
  have hstep1 : b ^ ((5 : ℝ) / 12) - a ^ ((5 : ℝ) / 12) ≤
      (5 : ℝ) / 12 * (b - a) * (a ^ ((5 : ℝ) / 12) / a) := by
    have h1 : b ^ ((5 : ℝ) / 12) ≤
        a ^ ((5 : ℝ) / 12) * (1 + (5 : ℝ) / 12 * ((b - a) / a)) := by
      rw [hsplit, hdivba]
      exact mul_le_mul_of_nonneg_left hBer hApos.le
    have h2 : a ^ ((5 : ℝ) / 12) * (1 + (5 : ℝ) / 12 * ((b - a) / a)) =
        a ^ ((5 : ℝ) / 12) + (5 : ℝ) / 12 * (b - a) *
          (a ^ ((5 : ℝ) / 12) / a) := by
      ring
    linarith [h1, h2.le]
  have hinvq : a ^ ((5 : ℝ) / 12) / a = (a ^ ((7 : ℝ) / 12))⁻¹ := by
    apply eq_inv_of_mul_eq_one_left
    rw [div_mul_eq_mul_div, ← Real.rpow_add ha0,
      show ((5 : ℝ) / 12 + 7 / 12) = 1 by norm_num, Real.rpow_one,
      div_self (ne_of_gt ha0)]
  have hlow : (0.033 : ℝ) ≤ a ^ ((7 : ℝ) / 12) := by
    have hthr : (0.0031308 : ℝ) ^ ((7 : ℝ) / 12) ≤ a ^ ((7 : ℝ) / 12) :=
      Real.rpow_le_rpow (by norm_num) ha (by norm_num)
    have hc : (0.033 : ℝ) ≤ (0.0031308 : ℝ) ^ ((7 : ℝ) / 12) := by
      apply le_of_pow_le_pow_left (show (12 : ℕ) ≠ 0 by norm_num)
        (Real.rpow_nonneg (by norm_num) _)
      rw [← Real.rpow_natCast ((0.0031308 : ℝ) ^ ((7 : ℝ) / 12)) 12,
        ← Real.rpow_mul (by norm_num),
        show ((7 : ℝ) / 12 * (12 : ℕ)) = ((7 : ℕ) : ℝ) by norm_num,
        Real.rpow_natCast]
      norm_num
    linarith
  have hinvb : (a ^ ((7 : ℝ) / 12))⁻¹ ≤ 0.033⁻¹ := by
    apply inv_le_inv_of_le (by norm_num) hlow
  have hfinal : (5 : ℝ) / 12 * (b - a) * (a ^ ((5 : ℝ) / 12) / a) ≤
      12.7 * (b - a) := by
    rw [hinvq]
    have hmul : (5 : ℝ) / 12 * (b - a) * (a ^ ((7 : ℝ) / 12))⁻¹ ≤
        (5 : ℝ) / 12 * (b - a) * 0.033⁻¹ :=
      mul_le_mul_of_nonneg_left hinvb (by nlinarith)
    have : (5 : ℝ) / 12 * (b - a) * 0.033⁻¹ ≤ 12.7 * (b - a) := by
      rw [show ((0.033 : ℝ))⁻¹ = 1000 / 33 by norm_num]
      nlinarith
    linarith
  calc b ^ ((1 : ℝ) / 2.4) - a ^ ((1 : ℝ) / 2.4)
      = b ^ ((5 : ℝ) / 12) - a ^ ((5 : ℝ) / 12) := by rw [hexp]
    _ ≤ (5 : ℝ) / 12 * (b - a) * (a ^ ((5 : ℝ) / 12) / a) := hstep1
    _ ≤ 12.7 * (b - a) := hfinal

theorem gammaEncode_le_add (a b : ℝ) (hab : a ≤ b) :
    gammaEncode b - gammaEncode a ≤ 13.4 * (b - a) + 0.00021 ∧
      gammaEncode a - gammaEncode b ≤ 0.00021 := by
  have hq_lo : (0.09027483 : ℝ) ≤ (0.0031308 : ℝ) ^ ((1 : ℝ) / 2.4) :=
    rpow_five_twelfths_le _ _ (by norm_num) (by norm_num) (by norm_num)
  have hq_hi : (0.0031308 : ℝ) ^ ((1 : ℝ) / 2.4) ≤ 0.09067292 :=
    rpow_five_twelfths_ge _ _ (by norm_num) (by norm_num) (by norm_num)
  unfold gammaEncode
  rcases le_or_lt b 0.0031308 with hb | hb
  · rw [if_neg (not_lt.mpr hb), if_neg (not_lt.mpr (le_trans hab hb))]
    constructor <;> nlinarith
  · rcases le_or_lt a 0.0031308 with ha | ha
    · rw [if_pos hb, if_neg (not_lt.mpr ha)]
      have hmono : (0.0031308 : ℝ) ^ ((1 : ℝ) / 2.4) ≤ b ^ ((1 : ℝ) / 2.4) :=
        Real.rpow_le_rpow (by norm_num) hb.le (by norm_num)
      have hdiff : b ^ ((1 : ℝ) / 2.4) - (0.0031308 : ℝ) ^ ((1 : ℝ) / 2.4) ≤
          12.7 * (b - 0.0031308) :=
        rpow_five_twelfths_diff _ _ (by norm_num) hb.le
      constructor <;> nlinarith
    · rw [if_pos hb, if_pos ha]
      have hmono : a ^ ((1 : ℝ) / 2.4) ≤ b ^ ((1 : ℝ) / 2.4) :=
        Real.rpow_le_rpow (by positivity) hab (by norm_num)
      have hdiff : b ^ ((1 : ℝ) / 2.4) - a ^ ((1 : ℝ) / 2.4) ≤
          12.7 * (b - a) :=
        rpow_five_twelfths_diff _ _ ha.le hab
      constructor <;> nlinarith

theorem gammaEncode_close (v w : ℝ) (hd : |w - v| ≤ 0.0001) :
    |gammaEncode w - gammaEncode v| ≤ 13.4 * 0.0001 + 0.00021 := by
  rcases le_total v w with hvw | hvw
  · obtain ⟨hfwd, hback⟩ := gammaEncode_le_add v w hvw
    have habs : w - v ≤ 0.0001 := by
      have := abs_le.mp hd
      linarith [this.2]
    rw [abs_le]
    constructor <;> nlinarith
  · obtain ⟨hfwd, hback⟩ := gammaEncode_le_add w v hvw
    have habs : v - w ≤ 0.0001 := by
      have := abs_le.mp hd
      linarith [this.1]
    rw [abs_le]
    constructor <;> nlinarith

theorem roundChannel_eq (x : ℝ) (c : ℤ) (h0 : 0 ≤ c) (h255 : c ≤ 255)
    (hx : |x - (c : ℝ)| < 1 / 2) :
    max 0 (min 255 ⌊x + 1 / 2⌋) = c := by
  have hfl : ⌊x + 1 / 2⌋ = c := by
    rw [Int.floor_eq_iff]
    obtain ⟨hx1, hx2⟩ := abs_lt.mp hx
    constructor
    · linarith
    · push_cast
      linarith
  rw [hfl, min_eq_right h255, max_eq_right h0]

theorem encode_channel_eq (v w : ℝ) (c : ℤ) (h0 : 0 ≤ c) (h255 : c ≤ 255)
    (hv : gammaEncode v = (c : ℝ) / 255) (hd : |w - v| ≤ 0.0001) :
    max 0 (min 255 ⌊gammaEncode w * 255 + 1 / 2⌋) = c := by
  apply roundChannel_eq _ _ h0 h255
  have hcval : (c : ℝ) = gammaEncode v * 255 := by
    rw [hv]
    field_simp
  have hrw : gammaEncode w * 255 - (c : ℝ) =
      (gammaEncode w - gammaEncode v) * 255 := by
    rw [hcval]
    ring
  rw [hrw, abs_mul]
  have h1 := gammaEncode_close v w hd
  calc |gammaEncode w - gammaEncode v| * |(255 : ℝ)|
      = |gammaEncode w - gammaEncode v| * 255 := by norm_num
    _ ≤ (13.4 * 0.0001 + 0.00021) * 255 := by
        exact mul_le_mul_of_nonneg_right h1 (by norm_num)
    _ < 1 / 2 := by norm_num

theorem labToRgb_rgbToLab_eq (c : Rgb) (hc : validRgb c) :
    labToRgb (rgbToLab c) = c := by
  obtain ⟨cr, cg, cb⟩ := c
  obtain ⟨h1, h2, h3, h4, h5, h6⟩ := hc
  simp only [rgbToLab, labToRgb]
  set vr := gammaDecode ((cr : ℝ) / 255) with hvr
  set vg := gammaDecode ((cg : ℝ) / 255) with hvg
  set vb := gammaDecode ((cb : ℝ) / 255) with hvb
  have hvrm : 0 ≤ vr ∧ vr ≤ 1 := by
    rw [hvr]
    exact gammaDecode_mem _ (by positivity)
      (by rw [div_le_one (by norm_num)]; exact_mod_cast h2)
  have hvgm : 0 ≤ vg ∧ vg ≤ 1 := by
    rw [hvg]
    exact gammaDecode_mem _ (by positivity)
      (by rw [div_le_one (by norm_num)]; exact_mod_cast h4)
  have hvbm : 0 ≤ vb ∧ vb ≤ 1 := by
    rw [hvb]
    exact gammaDecode_mem _ (by positivity)
      (by rw [div_le_one (by norm_num)]; exact_mod_cast h6)
  obtain ⟨hvr0, hvr1⟩ := hvrm
  obtain ⟨hvg0, hvg1⟩ := hvgm
  obtain ⟨hvb0, hvb1⟩ := hvbm
  set TX := (vr * 0.4124 + vg * 0.3576 + vb * 0.1805) / 0.95047 with hTX
  set TY := (vr * 0.2126 + vg * 0.7152 + vb * 0.0722) / 1.00000 with hTY
  set TZ := (vr * 0.0193 + vg * 0.1192 + vb * 0.9505) / 1.08883 with hTZ
  have hTX0 : 0 ≤ TX := by
    rw [hTX]
    apply div_nonneg _ (by norm_num)
    nlinarith
  have hTY0 : 0 ≤ TY := by
    rw [hTY]
    apply div_nonneg _ (by norm_num)
    nlinarith
  have hTZ0 : 0 ≤ TZ := by
    rw [hTZ]
    apply div_nonneg _ (by norm_num)
    nlinarith
  rw [show (116 * labF TY - 16 + 16) / 116 = labF TY from by ring]
  rw [show 500 * (labF TX - labF TY) / 500 + labF TY = labF TX from by ring]
  rw [show labF TY - 200 * (labF TY - labF TZ) / 200 = labF TZ from by ring]
  rw [labF_cube_id TX hTX0, labF_cube_id TY hTY0, labF_cube_id TZ hTZ0]
  rw [hTX, hTY, hTZ]
  simp only
    [show ∀ q : ℝ, (0.95047 : ℝ) * (q / 0.95047) = q from fun q => by
      rw [mul_comm, div_mul_cancel₀ _ (by norm_num : (0.95047 : ℝ) ≠ 0)],
     show ∀ q : ℝ, (1.00000 : ℝ) * (q / 1.00000) = q from fun q => by
      norm_num,
     show ∀ q : ℝ, (1.08883 : ℝ) * (q / 1.08883) = q from fun q => by
      rw [mul_comm, div_mul_cancel₀ _ (by norm_num : (1.08883 : ℝ) ≠ 0)]]
  rw [Rgb.mk.injEq]
  refine ⟨?_, ?_, ?_⟩
  · apply encode_channel_eq vr _ cr h1 h2
    · rw [hvr]
      exact gammaEncode_gammaDecode cr h1 h2
    · rw [abs_le]
      constructor <;> nlinarith
  · apply encode_channel_eq vg _ cg h3 h4
    · rw [hvg]
      exact gammaEncode_gammaDecode cg h3 h4
    · rw [abs_le]
      constructor <;> nlinarith
  · apply encode_channel_eq vb _ cb h5 h6
    · rw [hvb]
      exact gammaEncode_gammaDecode cb h5 h6
    · rw [abs_le]
      constructor <;> nlinarith

/-- C2. RGB↔Lab round-trip: for every valid RGB color (integer channels
in `[0, 255]`), converting to Lab with `rgbToLab` and back with
`labToRgb` reproduces the color within at most 1 unit per channel (in
the real-valued semantics of the conversion pipeline the round-trip is
in fact exact: the gamma and Lab nonlinearities invert exactly and the
forward/backward matrix error, below 1e-4 per channel, vanishes in the
final rounding). -/
theorem rgb_lab_roundtrip_within_one :
    ∀ c : Rgb, validRgb c →
      |(labToRgb (rgbToLab c)).r - c.r| ≤ 1 ∧
      |(labToRgb (rgbToLab c)).g - c.g| ≤ 1 ∧
      |(labToRgb (rgbToLab c)).b - c.b| ≤ 1 := by
  intro c hc
  rw [labToRgb_rgbToLab_eq c hc]
  simp

/-- Witness for C2: instantiation at the color (12, 34, 56). -/
theorem rgb_lab_roundtrip_within_one_witness :
    |(labToRgb (rgbToLab ⟨12, 34, 56⟩)).r - (⟨12, 34, 56⟩ : Rgb).r| ≤ 1 ∧
    |(labToRgb (rgbToLab ⟨12, 34, 56⟩)).g - (⟨12, 34, 56⟩ : Rgb).g| ≤ 1 ∧
    |(labToRgb (rgbToLab ⟨12, 34, 56⟩)).b - (⟨12, 34, 56⟩ : Rgb).b| ≤ 1 :=
  rgb_lab_roundtrip_within_one ⟨12, 34, 56⟩ (by norm_num [validRgb])
